import Mathlib

/-!
Shallow embedding of the lead submission and attachment pipeline of the
quirk-trade-appraisal-VolkswagenMA repository: the form intake handler
(netlify/functions/trade-appraisal.js) and the submission relay's attachment
fetcher and email compositor (netlify/functions/submission-created.js),
together with theorems checking the specification's claims about them.
-/

/-! ### JavaScript string primitives -/

/-- Whitespace test for the characters removed by JS String.prototype.trim
(model restricted to space, tab, newline and carriage return). -/
def wsChar (c : Char) : Bool := c = ' ' || c = '\t' || c = '\n' || c = '\r'

/-- Drop leading and trailing whitespace from a character list. -/
def trimList (l : List Char) : List Char :=
  ((l.dropWhile wsChar).reverse.dropWhile wsChar).reverse

/-- Model of JS String.prototype.trim. -/
def jsTrim (s : String) : String := String.mk (trimList s.data)

/-- Model of JS String.prototype.toUpperCase, applied per character (the
repository only upcases VIN strings, which are ASCII). -/
def jsUpper (s : String) : String := String.mk (s.data.map Char.toUpper)

/-- List slice of the first `n` characters, JS `s.slice(0, n)`. -/
def strTake (s : String) (n : Nat) : String := String.mk (s.data.take n)

/-- JS `x || dflt` on strings: the empty string is falsy. -/
def strOr (s d : String) : String := if s = "" then d else s

/-- JS `String.prototype.split(",")`, written structurally over characters. -/
def splitCommaChars : List Char → List (List Char)
  | [] => [[]]
  | c :: rest =>
    let r := splitCommaChars rest
    if c = ',' then [] :: r
    else
      match r with
      | [] => [[c]]
      | g :: gs => (c :: g) :: gs

/-- JS `s.split(",")`. -/
def splitComma (s : String) : List String := (splitCommaChars s.data).map String.mk

/-! ### JavaScript values -/

/-- A JavaScript value as it can appear in a parsed request body: a string, a
number, a boolean, an array of strings, null, or some other object. A missing
key models `undefined`. Numbers are modelled as integers, since the repository
never computes with them. -/
inductive JSVal where
  | str (s : String)
  | num (n : Int)
  | boolean (b : Bool)
  | arr (elems : List String)
  | null
  | obj
deriving Repr, DecidableEq

/-- JS truthiness of a possibly-undefined value (`none` is `undefined`). -/
def truthy : Option JSVal → Bool
  | some (.str s) => s ≠ ""
  | some (.num n) => n ≠ 0
  | some (.boolean b) => b
  | some (.arr _) => true
  | some .null => false
  | some .obj => true
  | none => false

/-- JS `a || b` on possibly-undefined values. -/
def jsOr (a b : Option JSVal) : Option JSVal := if truthy a then a else b

/-- JS `a || b` where `b` is a present value. -/
def jsOrVal (a : Option JSVal) (b : JSVal) : JSVal := (jsOr a (some b)).getD b

/-- JS `String(v)` coercion. JS arrays stringify by joining with a comma. -/
def jsToString : JSVal → String
  | .str s => s
  | .num n => toString n
  | .boolean true => "true"
  | .boolean false => "false"
  | .arr l => String.intercalate "," l
  | .null => "null"
  | .obj => "[object Object]"

/-- The runtime errors the embedded code can raise. -/
inductive JSError where
  | typeError
deriving Repr, DecidableEq

/-- Model of calling `.toUpperCase()` on an arbitrary JS value: only strings
have the method; any other receiver raises a TypeError. -/
def callToUpperCase : JSVal → Except JSError String
  | .str s => .ok (jsUpper s)
  | _ => .error .typeError

/-- A parsed fields map (a flat JS object): association list from key to value. -/
abbrev Fields := List (String × JSVal)

/-- JS property access `fields[k]`, `none` meaning `undefined`. -/
def getField (f : Fields) (k : String) : Option JSVal := f.lookup k

/-! ### Helpers of trade-appraisal.js -/

/-- `const safe = (v) => (typeof v === "string" ? v.trim() : "");` -/
def safe (v : Option JSVal) : String :=
  match v with
  | some (.str s) => jsTrim s
  | _ => ""

/-- `const digits = (v) => safe(v).replace(/\D/g, "");` -/
def digits (v : Option JSVal) : String := String.mk ((safe v).data.filter Char.isDigit)

/-- Expansion of one character under the three HTML escaping replacements. -/
def escChar (c : Char) : List Char :=
  if c = '&' then "&amp;".data
  else if c = '<' then "&lt;".data
  else if c = '>' then "&gt;".data
  else [c]

/-- `const escape = (s) => String(s).replace(/&/g, "&amp;").replace(/</g, "&lt;").replace(/>/g, "&gt;");`
Replacing `&` first and `<`, `>` afterwards never rewrites the output of an
earlier replacement, so the sequence equals this single left-to-right pass. -/
def escape (s : String) : String := String.mk (s.data.flatMap escChar)

/-! ### The normalized Lead record -/

/-- The normalized submission record produced by `normalizeLead`. -/
structure Lead where
  name : String
  email : String
  phone : String
  vin : String
  year : String
  make : String
  model : String
  trim : String
  mileage : String
  extColor : String
  intColor : String
  referrer : String
  landingPage : String
  submittedAt : String
deriving Repr, DecidableEq, Inhabited

/-- `normalizeLead` from trade-appraisal.js. `now` stands for
`new Date().toISOString()`. The expression `(src.vin || "").toUpperCase()`
calls `.toUpperCase()` on the raw value, which raises a TypeError whenever
`src.vin` is a truthy non-string, hence the fallible result; `safe` applied to
the resulting string is a trim. -/
def normalizeLead (now : String) (src : Fields) : Except JSError Lead := do
  let vinUpper ← callToUpperCase (jsOrVal (getField src "vin") (.str ""))
  pure {
    name := safe (getField src "name")
    email := safe (getField src "email")
    phone := strTake (digits (jsOr (getField src "phoneRaw") (getField src "phone"))) 15
    vin := jsTrim vinUpper
    year := safe (getField src "year")
    make := safe (getField src "make")
    model := safe (getField src "model")
    trim := safe (getField src "trim")
    mileage := safe (getField src "mileage")
    extColor := safe (getField src "extColor")
    intColor := safe (getField src "intColor")
    referrer := safe (getField src "referrer")
    landingPage := safe (getField src "landingPage")
    submittedAt := now
  }

/-! ### Multipart parsing (parseMultipart of trade-appraisal.js) -/

/-- One part of a multipart/form-data body as delivered by the streaming
parser: either a field with its text value, or a file part with its metadata
and the list of received data chunks (bytes modelled as naturals). -/
inductive MPart where
  | fieldPart (name : String) (val : String)
  | filePart (name : String) (filename : Option String) (mimeType : Option String)
      (chunks : List (List Nat))
deriving Repr, DecidableEq

/-- A single attached file kept by the parser. -/
structure FileUpload where
  field : String
  filename : String
  mimetype : String
  buffer : List Nat
  size : Nat
deriving Repr, DecidableEq

/-- `fields[name] = val`: later values of the same name overwrite earlier ones. -/
def setField (fs : List (String × String)) (k v : String) : List (String × String) :=
  if fs.any (fun p => p.1 = k) then fs.map (fun p => if p.1 = k then (k, v) else p)
  else fs ++ [(k, v)]

/-- One event of parseMultipart: a field is recorded with overwrite; a
completed file part is kept only when its trimmed filename is non-empty and it
received more than zero bytes, with `mimeType || "application/octet-stream"`
as declared type, the concatenated chunks as buffer and the accumulated chunk
lengths as size. -/
def parseMultipartStep (st : List (String × String) × List FileUpload) (p : MPart) :
    List (String × String) × List FileUpload :=
  match p with
  | .fieldPart n v => (setField st.1 n v, st.2)
  | .filePart n fn mt chunks =>
    let cleanName := jsTrim (fn.getD "")
    let size := (chunks.map List.length).sum
    if cleanName ≠ "" ∧ 0 < size then
      (st.1, st.2 ++ [{ field := n
                        filename := cleanName
                        mimetype := strOr (mt.getD "") "application/octet-stream"
                        buffer := chunks.flatten
                        size := size }])
    else st

/-- parseMultipart from trade-appraisal.js, at the level of the event stream:
produces the `(fields, files)` pair. -/
def parseMultipart (parts : List MPart) : List (String × String) × List FileUpload :=
  parts.foldl parseMultipartStep ([], [])

/-! ### SendGrid attachments (toAttachments of trade-appraisal.js) -/

/-- The base64 alphabet. -/
def b64Alphabet : List Char :=
  "ABCDEFGHIJKLMNOPQRSTUVWXYZabcdefghijklmnopqrstuvwxyz0123456789+/".data

/-- Character of a 6-bit group. -/
def b64CharOf (n : Nat) : Char := b64Alphabet.getD n '?'

/-- Standard base64 with padding over a byte list, `buffer.toString("base64")`. -/
def base64Encode : List Nat → List Char
  | [] => []
  | [a] => [b64CharOf (a / 4), b64CharOf (a % 4 * 16), '=', '=']
  | [a, b] => [b64CharOf (a / 4), b64CharOf (a % 4 * 16 + b / 16), b64CharOf (b % 16 * 4), '=']
  | a :: b :: c :: rest =>
    [b64CharOf (a / 4), b64CharOf (a % 4 * 16 + b / 16), b64CharOf (b % 16 * 4 + c / 64),
      b64CharOf (c % 64)] ++ base64Encode rest

/-- A SendGrid attachment payload. -/
structure SgAttachment where
  content : String
  filename : String
  type : String
  disposition : String
deriving Repr, DecidableEq

/-- The filter of toAttachments:
`f && f.buffer && f.buffer.length > 0 && f.filename && String(f.filename).trim()`. -/
def validUpload (f : FileUpload) : Bool :=
  0 < f.buffer.length && f.filename ≠ "" && jsTrim f.filename ≠ ""

/-- Payload built for one kept upload. -/
def sgOf (f : FileUpload) : SgAttachment :=
  { content := String.mk (base64Encode f.buffer)
    filename := f.filename
    type := strOr f.mimetype "application/octet-stream"
    disposition := "attachment" }

/-- toAttachments from trade-appraisal.js: keep the valid uploads, cap at 8,
convert each to a SendGrid payload. -/
def toAttachments (files : List FileUpload) : List SgAttachment :=
  (((files.filter validUpload).take 8).map sgOf)

/-! ### Email composition (buildEmailBodies of trade-appraisal.js) -/

/-- The preferred key order of buildEmailBodies. -/
def preferredKeys : List String :=
  ["name", "email", "phone", "vin", "year", "make", "model", "trim", "mileage",
   "extColor", "intColor", "title", "keys", "owners", "accident", "accidentRepair",
   "warnings", "mech", "cosmetic", "interior", "mods", "smells", "service",
   "tires", "brakes", "wear", "utmSource", "utmMedium", "utmCampaign", "utmTerm",
   "utmContent", "referrer", "landingPage", "submittedAt"]

/-- The Lead record as key/value pairs, in field order. -/
def leadPairs (lead : Lead) : List (String × String) :=
  [("name", lead.name), ("email", lead.email), ("phone", lead.phone),
   ("vin", lead.vin), ("year", lead.year), ("make", lead.make),
   ("model", lead.model), ("trim", lead.trim), ("mileage", lead.mileage),
   ("extColor", lead.extColor), ("intColor", lead.intColor),
   ("referrer", lead.referrer), ("landingPage", lead.landingPage),
   ("submittedAt", lead.submittedAt)]

/-- `const merged = { ...rawData, ...lead };` : rawData's keys in their
original order with lead fields overriding on collision, then the lead's
remaining keys appended. -/
def mergedFields (rawData : Fields) (lead : Lead) : Fields :=
  (rawData.map (fun p =>
    match (leadPairs lead).lookup p.1 with
    | some v => (p.1, JSVal.str v)
    | none => p)) ++
  ((leadPairs lead).filter (fun q => !(rawData.map Prod.fst).contains q.1)).map
    (fun q => (q.1, JSVal.str q.2))

/-- `v !== undefined && v !== null && String(v).trim() !== ""` for a present value. -/
def hasValB (v : JSVal) : Bool := v ≠ JSVal.null && jsTrim (jsToString v) ≠ ""

/-- The row pushed for key `k`, if any: the pair `[k, String(v)]` when the
value is present and non-blank. -/
def rowOf (merged : Fields) (k : String) : Option (String × String) :=
  match getField merged k with
  | some v => if hasValB v then some (k, jsToString v) else none
  | none => none

/-- Lexicographic comparison of strings by character code, the default JS
Array.prototype.sort order on key strings. -/
def lexLe : List Char → List Char → Bool
  | [], _ => true
  | _ :: _, [] => false
  | a :: as, b :: bs =>
    if a.toNat < b.toNat then true
    else if b.toNat < a.toNat then false
    else lexLe as bs

/-- String comparison used for sorting keys. -/
def strLeb (a b : String) : Bool := lexLe a.data b.data

/-- Sorting relation on strings. -/
def strRel (a b : String) : Prop := strLeb a b = true

instance : DecidableRel strRel := fun a b => instDecidableEqBool (strLeb a b) true

/-- `Object.keys(...).sort()`. -/
def keySort (l : List String) : List String := List.insertionSort strRel l

/-- The preferred keys that got a row pushed (the `included` set). -/
def includedKeys (merged : Fields) : List String :=
  preferredKeys.filter (fun k => (rowOf merged k).isSome)

/-- The row list of buildEmailBodies: preferred keys first, skipping blanks,
then the keys of merged not already included, sorted, again skipping blanks. -/
def buildRows (merged : Fields) : List (String × String) :=
  preferredKeys.filterMap (rowOf merged) ++
  (keySort ((merged.map Prod.fst).filter
    (fun k => !(includedKeys merged).contains k))).filterMap (rowOf merged)

/-- `[lead.year, lead.make, lead.model].filter(Boolean).join(" ")`. -/
def vehicleLine (lead : Lead) : String :=
  String.intercalate " " ([lead.year, lead.make, lead.model].filter (fun s => s ≠ ""))

/-- One `<tr>` of the HTML table, with key and value escaped. -/
def rowHtml (kv : String × String) : String :=
  "\n        <tr>\n          <th align=\"left\" style=\"text-transform:capitalize;vertical-align:top;color:#111827;padding:6px 10px 6px 0;\">" ++
  escape kv.1 ++
  "</th>\n          <td style=\"vertical-align:top;color:#111827;padding:6px 0;\">" ++
  escape kv.2 ++ "</td>\n        </tr>\n      "

/-- buildEmailBodies from trade-appraisal.js: returns `(html, text)`. The
vehicle summary paragraph interpolates `lead.year`, `lead.make` and
`lead.model` directly, while `lead.trim`, the table rows and the footer go
through `escape`. -/
def buildEmailBodies (lead : Lead) (rawData : Fields) : String × String :=
  let rows := buildRows (mergedFields rawData lead)
  let html :=
    "\n    <h2 style=\"margin:0 0 12px;font-family:system-ui,Segoe UI,Roboto,Helvetica,Arial;\">New Trade-In Lead</h2>\n    <p style=\"margin:0 0 16px;color:#374151;\">\n      " ++
    vehicleLine lead ++
    (if lead.trim ≠ "" then " – " ++ escape lead.trim else "") ++
    "\n    </p>\n    <table cellpadding=\"6\" cellspacing=\"0\" border=\"0\" style=\"border-collapse:collapse;font-family:system-ui,Segoe UI,Roboto,Helvetica,Arial;font-size:14px;\">\n      " ++
    String.join (rows.map rowHtml) ++
    "\n    </table>\n    <p style=\"margin-top:16px;color:#6B7280;font-size:12px;\">Submitted at " ++
    escape lead.submittedAt ++ "</p>\n  "
  let text := String.intercalate "\n" (rows.map (fun kv => kv.1 ++ ": " ++ kv.2))
  (html, text)

/-! ### The form intake handler (trade-appraisal.js) -/

/-- The environment configuration read by the handler. `none` models an unset
variable. -/
structure Env where
  toEmail : Option String
  fromEmail : String
  sheetsWebhookUrl : Option String
  sheetsSharedSecret : Option String
deriving Repr, DecidableEq

/-- The hardcoded fallback recipient list of trade-appraisal.js. -/
def defaultRecipientsRaw : String :=
  "mpalmer@quirkcars.com, steve.obrien@quirkcars.com, jlombard@quirkcars.com, msalihovic@quirkcars.com, nway@quirkcars.com, gmcintosh@quirkcars.com, lmendez@quirkcars.com"

/-- `(process.env.TO_EMAIL || default).split(",").map(s => s.trim()).filter(Boolean)`. -/
def recipients (env : Env) : List String :=
  ((splitComma (strOr (env.toEmail.getD "") defaultRecipientsRaw)).map jsTrim).filter
    (fun s => s ≠ "")

/-- The message handed to the email provider's send operation. `sender` is the
`from` address. -/
structure EmailMessage where
  toRecipients : List String
  sender : String
  subject : String
  text : String
  html : String
  attachments : Option (List SgAttachment)
deriving Repr, DecidableEq

/-- What one handler invocation returned and which side effects it performed:
`emailAttempted` records whether the provider send was invoked, `emailMsg` the
message handed to it, `webhookCalled` whether the backup webhook was posted. -/
structure HandlerOutcome where
  status : Nat
  body : String
  location : Option String
  emailAttempted : Bool
  emailMsg : Option EmailMessage
  webhookCalled : Bool
deriving Repr, DecidableEq, Inhabited

/-- Body of the silent bot response, `JSON.stringify({ ok: true, silent: true })`. -/
def silentBody : String := "\x7b\"ok\":true,\"silent\":true\x7d"

/-- Body of the JSON success response, `JSON.stringify({ ok: true, files: n })`. -/
def jsonOkFiles (n : Nat) : String := "\x7b\"ok\":true,\"files\":" ++ toString n ++ "\x7d"

/-- Count of `attachments ? attachments.length : 0`. -/
def attCount : Option (List SgAttachment) → Nat
  | some l => l.length
  | none => 0

/-- The exported handler of trade-appraisal.js. `parsed` is the outcome of
body parsing (`.error` for a malformed multipart or JSON body), `sendOk` says
whether the provider accepts the send, `wantsJson` is the response
negotiation (Accept header or AJAX marker), `now` the toISOString timestamp.
Webhook failures are swallowed, so only the fact that the webhook is
configured matters for the outcome. -/
def handler (env : Env) (httpMethod : String)
    (parsed : Except Unit (Fields × List FileUpload)) (sendOk : Bool)
    (wantsJson : Bool) (now : String) : Except JSError HandlerOutcome :=
  if httpMethod = "OPTIONS" then
    .ok { status := 200, body := "ok", location := none, emailAttempted := false,
          emailMsg := none, webhookCalled := false }
  else if httpMethod ≠ "POST" then
    .ok { status := 405, body := "Method Not Allowed", location := none,
          emailAttempted := false, emailMsg := none, webhookCalled := false }
  else
    match parsed with
    | .error _ =>
      .ok { status := 400, body := "Invalid request body", location := none,
            emailAttempted := false, emailMsg := none, webhookCalled := false }
    | .ok (rawData, uploads) =>
      if jsTrim (safe (getField rawData "company")) ≠ "" then
        .ok { status := 200, body := silentBody, location := none,
              emailAttempted := false, emailMsg := none, webhookCalled := false }
      else
        match normalizeLead now rawData with
        | .error e => .error e
        | .ok lead =>
          if lead.name = "" ∨ lead.email = "" ∨ lead.phone = "" ∨ lead.vin = "" then
            .ok { status := 400, body := "Missing required fields", location := none,
                  emailAttempted := false, emailMsg := none, webhookCalled := false }
          else
            let bodies := buildEmailBodies lead rawData
            let att := toAttachments uploads
            let attachments : Option (List SgAttachment) :=
              if att.isEmpty then none else some att
            let subjectLine := jsTrim ("New Trade-In Lead – " ++ lead.name ++ " – " ++
              vehicleLine lead)
            let msg : EmailMessage :=
              { toRecipients := recipients env, sender := env.fromEmail, subject := subjectLine,
                text := bodies.2, html := bodies.1, attachments := attachments }
            if sendOk then
              let wh := env.sheetsWebhookUrl.isSome
              if wantsJson then
                .ok { status := 200, body := jsonOkFiles (attCount attachments),
                      location := none, emailAttempted := true, emailMsg := some msg,
                      webhookCalled := wh }
              else
                .ok { status := 303, body := "", location := some "/success/index.html",
                      emailAttempted := true, emailMsg := some msg, webhookCalled := wh }
            else
              .ok { status := 502, body := "Failed to send lead", location := none,
                    emailAttempted := true, emailMsg := some msg, webhookCalled := false }

/-! ### The relay's attachment fetcher (processAttachments of submission-created.js) -/

/-- A Netlify file descriptor handed to processAttachments, together with the
outcome of fetching its URL: `none` when the fetch throws or the response is
not ok, `some n` for a successful response whose body holds `n` bytes. The
byte payload is abstracted by its length, since the fetched bytes only flow
into the opaque base64 content. -/
structure FileDesc where
  url : String
  filename : String
  type : String
  fetched : Option Nat
deriving Repr, DecidableEq

/-- A prepared relay attachment; `size` abstracts the base64 content payload. -/
structure RelayAttachment where
  filename : String
  type : String
  disposition : String
  size : Nat
deriving Repr, DecidableEq

/-- `MAX_ATTACH = 10`. -/
def MAX_ATTACH : Nat := 10

/-- `MAX_EACH_MB * 1024 * 1024` with `MAX_EACH_MB = 7`. -/
def MAX_EACH_BYTES : Nat := 7 * 1024 * 1024

/-- `MAX_TOTAL_MB * 1024 * 1024` with `MAX_TOTAL_MB = 20`. -/
def MAX_TOTAL_BYTES : Nat := 20 * 1024 * 1024

/-- The attachment payload produced for a successfully fetched descriptor. -/
def relayOf (f : FileDesc) (size : Nat) : RelayAttachment :=
  { filename := f.filename, type := strOr f.type "application/octet-stream",
    disposition := "attachment", size := size }

/-- What the async closure of descriptor `k` does when its fetch settles:
a failed fetch or oversize body changes nothing; otherwise the shared
`totalSize` is checked and, if the file fits, bumped and `k` admitted. The
state is the pair (admitted indices in completion order, totalSize). -/
def schedStep (cs : List FileDesc) (st : List Nat × Nat) (k : Nat) : List Nat × Nat :=
  match cs[k]? with
  | none => st
  | some f =>
    match f.fetched with
    | none => st
    | some size =>
      if MAX_EACH_BYTES < size then st
      else if MAX_TOTAL_BYTES < st.2 + size then st
      else (st.1 ++ [k], st.2 + size)

/-- Run all settlements in completion order `sched`. -/
def runSched (cs : List FileDesc) (sched : List Nat) : List Nat × Nat :=
  sched.foldl (schedStep cs) ([], 0)

/-- processAttachments from submission-created.js: the first MAX_ATTACH
descriptors are fetched concurrently and each completion checks the per-file
cap and then checks and bumps the shared running total, in completion order
`sched` (a permutation of the considered indices in a real run);
`Promise.all` keeps results in input positions and the `null`s are filtered
out, so the admitted attachments appear in input order. -/
def processAttachments (files : List FileDesc) (sched : List Nat) : List RelayAttachment :=
  let cs := files.take MAX_ATTACH
  let admitted := (runSched cs sched).1
  cs.enum.filterMap (fun p =>
    if p.1 ∈ admitted then
      match p.2.fetched with
      | some size => some (relayOf p.2 size)
      | none => none
    else none)

/-- Modelled from the spec: first-fit admission with the cumulative total
counted in the fixed input order, over the first MAX_ATTACH descriptors, for
comparison with `processAttachments`. -/
def firstFitSpec (files : List FileDesc) : List RelayAttachment :=
  ((files.take MAX_ATTACH).foldl (fun (st : List RelayAttachment × Nat) f =>
    match f.fetched with
    | none => st
    | some size =>
      if MAX_EACH_BYTES < size then st
      else if MAX_TOTAL_BYTES < st.2 + size then st
      else (st.1 ++ [relayOf f size], st.2 + size)) ([], 0)).1

/-! ### The relay's email compositor (createEmailContent of submission-created.js) -/

/-- The control-field set excluded from rendered rows (the code names the set
`included` but uses it as an exclusion list). -/
def relayExcludedKeys : List String := ["form-name", "company", "bot-field", "honeypot"]

/-- The row list of createEmailContent: all keys sorted, control fields
skipped, blank values skipped, arrays joined with a comma and space. -/
def createRows (data : Fields) : List (String × String) :=
  (keySort (data.map Prod.fst)).filterMap (fun k =>
    if relayExcludedKeys.contains k then none
    else
      match getField data k with
      | some v =>
        if hasValB v then
          some (k, match v with
            | .arr l => String.intercalate ", " l
            | _ => jsToString v)
        else none
      | none => none)

/-! ### Substring search used to state facts about rendered HTML -/

/-- Whether `pat` is a prefix of `l`. -/
def hasPrefixL : List Char → List Char → Bool
  | [], _ => true
  | _ :: _, [] => false
  | a :: pa, b :: lb => a = b && hasPrefixL pa lb

/-- Whether `pat` occurs contiguously in `l`. -/
def hasInfixL (pat : List Char) : List Char → Bool
  | [] => hasPrefixL pat []
  | b :: rest => hasPrefixL pat (b :: rest) || hasInfixL pat rest

/-- Whether `pat` occurs contiguously in `s`. -/
def strContains (s pat : String) : Bool := hasInfixL pat.data s.data

/-! ### Generic helper lemmas -/

deriving instance DecidableEq for Except

/-- The string content of a possibly-undefined JS value, empty for
non-strings; used to state claims about normalization inputs. -/
def strOfVal : Option JSVal → String
  | some (.str s) => s
  | _ => ""

theorem safe_eq_trim_strOfVal (v : Option JSVal) : safe v = jsTrim (strOfVal v) := by
  rcases v with _ | v
  · rfl
  · cases v <;> rfl

theorem filter_dropWhile (p q : Char → Bool) (h : ∀ a, q a = true → p a = false) :
    ∀ l : List Char, (l.dropWhile q).filter p = l.filter p := by
  intro l
  induction l with
  | nil => rfl
  | cons a l ih =>
    by_cases hq : q a = true
    · rw [List.dropWhile_cons_of_pos hq, ih, List.filter_cons_of_neg]
      simp [h a hq]
    · rw [List.dropWhile_cons_of_neg (by simpa using hq)]

theorem filter_trimList (p : Char → Bool) (h : ∀ a, wsChar a = true → p a = false)
    (l : List Char) : (trimList l).filter p = l.filter p := by
  unfold trimList
  rw [List.filter_reverse, filter_dropWhile p wsChar h, List.filter_reverse,
    filter_dropWhile p wsChar h, List.reverse_reverse]

theorem ws_char_cases (c : Char) (h : wsChar c = true) :
    c = ' ' ∨ c = '\t' ∨ c = '\n' ∨ c = '\r' := by
  simp [wsChar] at h
  tauto

theorem toNat_ofNat_valid (v : Nat) (h : v < 55296) : (Char.ofNat v).toNat = v := by
  have hv : v.isValidChar := Or.inl h
  simp only [Char.ofNat, dif_pos hv]
  simp [Char.ofNatAux, Char.toNat, UInt32.toNat, BitVec.toNat_ofNatLt]

theorem char_toNat_inj (c d : Char) (h : c.toNat = d.toNat) : c = d := by
  rw [← Char.ofNat_toNat c, h, Char.ofNat_toNat]

theorem ws_toNat (c : Char) :
    wsChar c = true ↔ (c.toNat = 32 ∨ c.toNat = 9 ∨ c.toNat = 10 ∨ c.toNat = 13) := by
  constructor
  · intro h
    rcases ws_char_cases c h with h | h | h | h <;> subst h <;> simp
  · intro h
    rcases h with h | h | h | h
    · rw [char_toNat_inj c ' ' (by simpa using h)]; rfl
    · rw [char_toNat_inj c '\t' (by simpa using h)]; rfl
    · rw [char_toNat_inj c '\n' (by simpa using h)]; rfl
    · rw [char_toNat_inj c '\r' (by simpa using h)]; rfl

theorem toUpper_toNat_lower (c : Char) (h : 97 ≤ c.toNat ∧ c.toNat ≤ 122) :
    (Char.toUpper c).toNat = c.toNat - 32 := by
  have : Char.toUpper c = Char.ofNat (c.toNat - 32) := by
    unfold Char.toUpper
    exact if_pos h
  rw [this, toNat_ofNat_valid _ (by omega)]

theorem toUpper_of_not_lower (c : Char) (h : ¬(97 ≤ c.toNat ∧ c.toNat ≤ 122)) :
    Char.toUpper c = c := by
  unfold Char.toUpper
  exact if_neg h

theorem ws_toUpper (c : Char) : wsChar (Char.toUpper c) = wsChar c := by
  by_cases h : 97 ≤ c.toNat ∧ c.toNat ≤ 122
  · have h1 := toUpper_toNat_lower c h
    have hc : wsChar c = false := by
      rw [Bool.eq_false_iff]
      intro hw
      rcases (ws_toNat c).mp hw with hx | hx | hx | hx <;> omega
    have hu : wsChar (Char.toUpper c) = false := by
      rw [Bool.eq_false_iff]
      intro hw
      rcases (ws_toNat _).mp hw with hx | hx | hx | hx <;> omega
    rw [hc, hu]
  · rw [toUpper_of_not_lower c h]

theorem trimList_map_toUpper (l : List Char) :
    trimList (l.map Char.toUpper) = (trimList l).map Char.toUpper := by
  have hws : (wsChar ∘ Char.toUpper) = wsChar := by
    funext c
    exact ws_toUpper c
  unfold trimList
  rw [List.dropWhile_map, hws, ← List.map_reverse, List.dropWhile_map, hws,
    ← List.map_reverse]

theorem jsTrim_jsUpper (s : String) : jsTrim (jsUpper s) = jsUpper (jsTrim s) := by
  simp [jsTrim, jsUpper, trimList_map_toUpper]

theorem ws_not_digit (a : Char) (h : wsChar a = true) : a.isDigit = false := by
  rcases ws_char_cases a h with h | h | h | h <;> subst h <;> decide

theorem digits_eq_filter_strOfVal (v : Option JSVal) :
    digits v = String.mk ((strOfVal v).data.filter Char.isDigit) := by
  rw [digits, safe_eq_trim_strOfVal]
  have hd : (jsTrim (strOfVal v)).data = trimList (strOfVal v).data := rfl
  apply congrArg String.mk
  rw [hd, filter_trimList Char.isDigit ws_not_digit]

/-! ### Claim C6: phone and VIN normalization -/

/-- Concrete input for the C6 counterexample: the spec's own phone example. -/
def phoneSrcC6 : Fields := [("phoneRaw", JSVal.str "(617) 555-1234 x9"), ("name", JSVal.str "Pat")]

/-- Claim C6 counterexample: on the spec's example input "(617) 555-1234 x9"
the normalized phone is "61755512349" (the extension digit 9 is kept, being a
digit character), not the spec's claimed "6175551234". -/
theorem normalizeLead_phone_keeps_extension_digit :
    (match normalizeLead "2026-01-01T00:00:00.000Z" phoneSrcC6 with
     | .ok l => l.phone
     | .error _ => "ERR") = "61755512349" ∧ "61755512349" ≠ "6175551234" := by
  constructor
  · decide
  · decide

/-- Claim C6 (amended): for every raw fields map that normalizes successfully,
the normalized phone consists of exactly the digit characters of the selected
raw input (`phoneRaw` if truthy, else `phone`; non-strings contribute no
characters) in their original order, truncated to at most 15 characters — so
"(617) 555-1234 x9" gives "61755512349" — and whenever the raw `vin || ""`
value is a string, the normalized VIN is that trimmed input uppercased. -/
theorem normalizeLead_phone_vin_spec (now : String) (src : Fields) (lead : Lead)
    (h : normalizeLead now src = .ok lead) :
    lead.phone = String.mk
      (((strOfVal (jsOr (getField src "phoneRaw") (getField src "phone"))).data.filter
        Char.isDigit).take 15)
    ∧ (∀ s, jsOrVal (getField src "vin") (JSVal.str "") = .str s →
        lead.vin = jsUpper (jsTrim s)) := by
  unfold normalizeLead at h
  cases hv : callToUpperCase (jsOrVal (getField src "vin") (JSVal.str "")) with
  | error e =>
    rw [hv] at h
    simp [Except.bind] at h
  | ok u =>
    rw [hv] at h
    simp only [Bind.bind, Except.bind, pure, Except.pure, Except.ok.injEq] at h
    constructor
    · rw [← h]
      show strTake (digits (jsOr (getField src "phoneRaw") (getField src "phone"))) 15 = _
      rw [digits_eq_filter_strOfVal]
      rfl
    · intro s hs
      rw [hs] at hv
      have hu : u = jsUpper s := by
        have := hv
        simp only [callToUpperCase, Except.ok.injEq] at this
        exact this.symm
      rw [← h]
      show jsTrim u = jsUpper (jsTrim s)
      rw [hu, jsTrim_jsUpper]

/-- Concrete input for the C6 witness: the spec's VIN example plus the phone
example. -/
def vinSrcC6 : Fields :=
  [("phoneRaw", JSVal.str "(617) 555-1234 x9"), ("vin", JSVal.str " 1hgcm82633a004352 ")]

/-- The lead obtained by normalizing `vinSrcC6`. -/
def leadC6 : Lead :=
  match normalizeLead "2026-01-01T00:00:00.000Z" vinSrcC6 with
  | .ok l => l
  | .error _ => default

/-- Witness for the amended C6 at a concrete input. -/
theorem normalizeLead_phone_vin_spec_witness :
    leadC6.phone = String.mk
      (((strOfVal (jsOr (getField vinSrcC6 "phoneRaw") (getField vinSrcC6 "phone"))).data.filter
        Char.isDigit).take 15)
    ∧ (∀ s, jsOrVal (getField vinSrcC6 "vin") (JSVal.str "") = .str s →
        leadC6.vin = jsUpper (jsTrim s)) :=
  normalizeLead_phone_vin_spec "2026-01-01T00:00:00.000Z" vinSrcC6 leadC6 (by decide)

/-! ### Claim C7: non-string field values -/

/-- Environment used in concrete handler runs for C7. -/
def envC7 : Env :=
  { toEmail := some "sales@quirkcars.com", fromEmail := "noreply@quirkcars.com",
    sheetsWebhookUrl := none, sheetsSharedSecret := none }

/-- Concrete failing input for C7: a JSON body in which `vin` is a number. -/
def vinSrcC7 : Fields :=
  [("name", JSVal.str "Pat"), ("email", JSVal.str "p@q.com"),
   ("phone", JSVal.str "6175551234"), ("vin", JSVal.num 12345)]

/-- Claim C7: the claim says the normalizer coerces non-string inputs to
strings without throwing, but `(src.vin || "").toUpperCase()` calls
.toUpperCase() on the raw value, so a truthy non-string vin (here the JSON
number 12345) raises a TypeError that propagates out of the handler. -/
theorem normalizeLead_nonstring_vin_throws :
    normalizeLead "2026-01-01T00:00:00.000Z" vinSrcC7 = .error .typeError
    ∧ handler envC7 "POST" (.ok (vinSrcC7, [])) true true "2026-01-01T00:00:00.000Z" =
      .error .typeError := by
  constructor
  · decide
  · decide

/-! ### Claim C1: the honeypot gate -/

/-- Claim C1: for every parsed POST whose honeypot field `company` is
non-blank, the handler returns HTTP 200 with the silent marker body, attempts
no email send and no webhook call, whatever the other fields, the uploads, the
provider outcome, the environment and the negotiation — in particular the gate
acts before required-field validation and before any side effect. -/
theorem handler_honeypot_silent_success (env : Env) (rawData : Fields)
    (uploads : List FileUpload) (sendOk wantsJson : Bool) (now : String)
    (h : jsTrim (safe (getField rawData "company")) ≠ "") :
    handler env "POST" (.ok (rawData, uploads)) sendOk wantsJson now =
      .ok { status := 200, body := silentBody, location := none,
            emailAttempted := false, emailMsg := none, webhookCalled := false } := by
  unfold handler
  simp [h]

/-- Environment used in the C1 witness. -/
def envC1 : Env :=
  { toEmail := none, fromEmail := "noreply@quirkcars.com",
    sheetsWebhookUrl := some "https://hooks.example/sheet", sheetsSharedSecret := none }

/-- Concrete honeypot input for the C1 witness; its required fields are all
blank, so the gate demonstrably precedes validation. -/
def hpSrcC1 : Fields := [("company", JSVal.str " bot "), ("name", JSVal.str "")]

/-- Witness for C1 at a concrete input with an upload and a configured
webhook: still a silent 200 with no side effect. -/
theorem handler_honeypot_silent_success_witness :
    handler envC1 "POST"
      (.ok (hpSrcC1, [{ field := "photos", filename := "a.jpg",
                        mimetype := "image/jpeg", buffer := [1, 2], size := 2 }]))
      true false "2026-01-01T00:00:00.000Z" =
      .ok { status := 200, body := silentBody, location := none,
            emailAttempted := false, emailMsg := none, webhookCalled := false } :=
  handler_honeypot_silent_success envC1 hpSrcC1
    [{ field := "photos", filename := "a.jpg", mimetype := "image/jpeg",
       buffer := [1, 2], size := 2 }] true false "2026-01-01T00:00:00.000Z" (by decide)

/-! ### Claim C2: required-field validation -/

/-- Environment used in the C2 theorems. -/
def envC2 : Env :=
  { toEmail := none, fromEmail := "noreply@quirkcars.com",
    sheetsWebhookUrl := none, sheetsSharedSecret := none }

/-- Concrete input for the C2 counterexample: blank name, non-blank honeypot. -/
def hpSrcC2 : Fields := [("company", JSVal.str "Acme Bots"), ("name", JSVal.str "")]

/-- Claim C2 counterexample: an input whose normalized name is blank is
claimed to get a 400; with a non-blank honeypot field the handler instead
returns the 200 silent response, because the honeypot gate precedes
required-field validation. -/
theorem handler_blank_required_honeypot_cex :
    (match normalizeLead "2026-01-01T00:00:00.000Z" hpSrcC2 with
     | .ok l => l.name
     | .error _ => "X") = ""
    ∧ handler envC2 "POST" (.ok (hpSrcC2, [])) true true "2026-01-01T00:00:00.000Z" =
      .ok { status := 200, body := silentBody, location := none,
            emailAttempted := false, emailMsg := none, webhookCalled := false }
    ∧ (match handler envC2 "POST" (.ok (hpSrcC2, [])) true true "2026-01-01T00:00:00.000Z" with
       | .ok o => o.status
       | .error _ => 0) ≠ 400 := by
  refine ⟨by decide, by decide, by decide⟩

/-- Claim C2 (amended): for every parsed POST whose honeypot field is blank
and whose normalization succeeds, if the normalized name, email, phone or VIN
is blank the handler returns 400 "Missing required fields" and attempts no
email send. -/
theorem handler_blank_required_400 (env : Env) (rawData : Fields)
    (uploads : List FileUpload) (sendOk wantsJson : Bool) (now : String) (lead : Lead)
    (hhp : jsTrim (safe (getField rawData "company")) = "")
    (hnorm : normalizeLead now rawData = .ok lead)
    (hblank : lead.name = "" ∨ lead.email = "" ∨ lead.phone = "" ∨ lead.vin = "") :
    handler env "POST" (.ok (rawData, uploads)) sendOk wantsJson now =
      .ok { status := 400, body := "Missing required fields", location := none,
            emailAttempted := false, emailMsg := none, webhookCalled := false } := by
  unfold handler
  simp [hhp, hnorm, hblank]

/-- Concrete input for the C2 witness: name missing entirely, other required
fields present. -/
def blankSrcC2 : Fields :=
  [("email", JSVal.str "p@q.com"), ("phone", JSVal.str "6175551234"),
   ("vin", JSVal.str "1HGCM82633A004352")]

/-- The lead obtained by normalizing `blankSrcC2`. -/
def leadC2 : Lead :=
  match normalizeLead "2026-01-01T00:00:00.000Z" blankSrcC2 with
  | .ok l => l
  | .error _ => default

/-- Witness for the amended C2 at a concrete input. -/
theorem handler_blank_required_400_witness :
    handler envC2 "POST" (.ok (blankSrcC2, [])) true true "2026-01-01T00:00:00.000Z" =
      .ok { status := 400, body := "Missing required fields", location := none,
            emailAttempted := false, emailMsg := none, webhookCalled := false } :=
  handler_blank_required_400 envC2 blankSrcC2 [] true true "2026-01-01T00:00:00.000Z"
    leadC2 (by decide) (by decide) (by decide)

/-! ### Claim C9: which file parts are materialized -/

/-- Modelled from the spec sentence: a file part is included as a FileUpload
only if it has a non-empty trimmed filename and a non-zero total byte length;
field parts never are. -/
def specFileOf : MPart → Option FileUpload
  | .fieldPart _ _ => none
  | .filePart n fn mt chunks =>
    let cleanName := jsTrim (fn.getD "")
    let size := (chunks.map List.length).sum
    if cleanName ≠ "" ∧ 0 < size then
      some { field := n, filename := cleanName,
             mimetype := strOr (mt.getD "") "application/octet-stream",
             buffer := chunks.flatten, size := size }
    else none

theorem parseMultipart_foldl_files (parts : List MPart) :
    ∀ fs acc, (parts.foldl parseMultipartStep (fs, acc)).2 = acc ++ parts.filterMap specFileOf := by
  induction parts with
  | nil => intro fs acc; simp
  | cons p parts ih =>
    intro fs acc
    cases p with
    | fieldPart n v =>
      rw [List.foldl_cons, List.filterMap_cons]
      exact ih (setField fs n v) acc
    | filePart n fn mt chunks =>
      rw [List.foldl_cons, List.filterMap_cons]
      by_cases hc : jsTrim (fn.getD "") ≠ "" ∧ 0 < (chunks.map List.length).sum
      · have hstep : parseMultipartStep (fs, acc) (.filePart n fn mt chunks) =
            (fs, acc ++ [{ field := n, filename := jsTrim (fn.getD ""),
                           mimetype := strOr (mt.getD "") "application/octet-stream",
                           buffer := chunks.flatten,
                           size := (chunks.map List.length).sum }]) := by
          simp [parseMultipartStep, hc]
        have hspec : specFileOf (.filePart n fn mt chunks) =
            some { field := n, filename := jsTrim (fn.getD ""),
                   mimetype := strOr (mt.getD "") "application/octet-stream",
                   buffer := chunks.flatten,
                   size := (chunks.map List.length).sum } := by
          simp [specFileOf, hc]
        rw [hstep, hspec, ih]
        simp
      · have hstep : parseMultipartStep (fs, acc) (.filePart n fn mt chunks) = (fs, acc) := by
          simp [parseMultipartStep, hc]
        have hspec : specFileOf (.filePart n fn mt chunks) = none := by
          simp [specFileOf, hc]
        rw [hstep, hspec, ih]

/-- Claim C9: a part appears in the parsed files list exactly as described by
`specFileOf` — it is materialized iff it is a file part with a non-empty
trimmed filename and more than zero received bytes — and every materialized
upload has a non-empty filename, a positive size, and a buffer of exactly
that size. -/
theorem parseMultipart_files_iff (parts : List MPart) :
    (parseMultipart parts).2 = parts.filterMap specFileOf
    ∧ ∀ u ∈ (parseMultipart parts).2,
        u.filename ≠ "" ∧ 0 < u.size ∧ u.size = u.buffer.length := by
  have hmain : (parseMultipart parts).2 = parts.filterMap specFileOf :=
    parseMultipart_foldl_files parts [] []
  refine ⟨hmain, ?_⟩
  intro u hu
  rw [hmain] at hu
  rcases List.mem_filterMap.mp hu with ⟨p, _, hp⟩
  cases p with
  | fieldPart n v => simp [specFileOf] at hp
  | filePart n fn mt chunks =>
    by_cases hc : jsTrim (fn.getD "") ≠ "" ∧ 0 < (chunks.map List.length).sum
    · have : u = { field := n, filename := jsTrim (fn.getD ""),
                   mimetype := strOr (mt.getD "") "application/octet-stream",
                   buffer := chunks.flatten,
                   size := (chunks.map List.length).sum } := by
        simp [specFileOf, hc] at hp
        exact hp.symm
      subst this
      refine ⟨hc.1, hc.2, ?_⟩
      rw [List.length_flatten]
    · simp [specFileOf, hc] at hp

/-- Concrete part stream for the C9 witness: one good file part, a
whitespace-named one, a zero-byte one and an unnamed one. -/
def partsC9 : List MPart :=
  [.fieldPart "name" "Pat",
   .filePart "photos" (some "a.jpg") (some "image/jpeg") [[10, 20], [30]],
   .filePart "photos" (some "  ") (some "image/png") [[1]],
   .filePart "photos" (some "b.png") none [],
   .filePart "photos" none (some "image/png") [[5]]]

/-- The single upload that `partsC9` materializes. -/
def uploadC9 : FileUpload :=
  { field := "photos", filename := "a.jpg", mimetype := "image/jpeg",
    buffer := [10, 20, 30], size := 3 }

/-- Witness for C9 at a concrete part stream. -/
theorem parseMultipart_files_iff_witness :
    uploadC9.filename ≠ "" ∧ 0 < uploadC9.size ∧ uploadC9.size = uploadC9.buffer.length :=
  (parseMultipart_files_iff partsC9).2 uploadC9 (by decide)

/-! ### Claim C10: at most 8 attachments -/

theorem toAttachments_length_le (uploads : List FileUpload) :
    (toAttachments uploads).length ≤ 8 := by
  simp only [toAttachments, List.length_map, List.length_take]
  omega

theorem attCount_le_eight (att : List SgAttachment) (h : att.length ≤ 8) :
    attCount (if att.isEmpty then none else some att) ≤ 8 := by
  by_cases he : att.isEmpty
  · simp [he, attCount]
  · simp [he, attCount, h]

/-- Claim C10: toAttachments keeps only the first 8 valid uploads, so at most
8 files are ever attached, and whenever the handler answers a JSON success its
files count equals the attachment count of the sent message and never exceeds
8. -/
theorem attachments_capped_at_eight :
    (∀ uploads, (toAttachments uploads).length ≤ 8
      ∧ toAttachments uploads = ((uploads.filter validUpload).map sgOf).take 8)
    ∧ (∀ env rawData uploads sendOk now out,
        handler env "POST" (.ok (rawData, uploads)) sendOk true now = .ok out →
        out.emailAttempted = true → out.status = 200 →
        ∃ msg, out.emailMsg = some msg ∧ out.body = jsonOkFiles (attCount msg.attachments)
          ∧ attCount msg.attachments ≤ 8) := by
  constructor
  · intro uploads
    refine ⟨toAttachments_length_le uploads, ?_⟩
    simp [toAttachments, List.map_take]
  · intro env rawData uploads sendOk now out h ha hs
    unfold handler at h
    rw [if_neg (by decide : ¬("POST" = "OPTIONS"))] at h
    rw [if_neg (by decide : ¬("POST" ≠ "POST"))] at h
    dsimp only at h
    by_cases hhp : jsTrim (safe (getField rawData "company")) ≠ ""
    · rw [if_pos hhp] at h
      simp only [Except.ok.injEq] at h
      rw [← h] at ha
      simp at ha
    · rw [if_neg hhp] at h
      cases hnorm : normalizeLead now rawData with
      | error e =>
        rw [hnorm] at h
        simp at h
      | ok lead =>
        rw [hnorm] at h
        dsimp only at h
        by_cases hb : lead.name = "" ∨ lead.email = "" ∨ lead.phone = "" ∨ lead.vin = ""
        · rw [if_pos hb] at h
          simp only [Except.ok.injEq] at h
          rw [← h] at ha
          simp at ha
        · rw [if_neg hb] at h
          cases sendOk with
          | false =>
            simp only [Bool.false_eq_true, if_false, Except.ok.injEq] at h
            rw [← h] at hs
            simp at hs
          | true =>
            simp only [if_pos rfl, if_true, Except.ok.injEq] at h
            rw [← h]
            refine ⟨_, rfl, rfl, ?_⟩
            exact attCount_le_eight (toAttachments uploads) (toAttachments_length_le uploads)

/-- Environment used in the C10 witness. -/
def envC10 : Env :=
  { toEmail := some "sales@quirkcars.com", fromEmail := "noreply@quirkcars.com",
    sheetsWebhookUrl := none, sheetsSharedSecret := none }

/-- Ten valid uploads. -/
def uploadsC10 : List FileUpload :=
  (List.range 10).map (fun i =>
    { field := "photos", filename := "p.jpg", mimetype := "image/jpeg",
      buffer := [i], size := 1 })

/-- A complete submission for the C10 witness. -/
def srcC10 : Fields :=
  [("name", JSVal.str "Pat"), ("email", JSVal.str "p@q.com"),
   ("phone", JSVal.str "6175551234"), ("vin", JSVal.str "1HGCM82633A004352")]

/-- The outcome of the concrete C10 handler run. -/
def outC10 : HandlerOutcome :=
  match handler envC10 "POST" (.ok (srcC10, uploadsC10)) true true
      "2026-01-01T00:00:00.000Z" with
  | .ok o => o
  | .error _ => default

/-- Witness for C10: with ten valid uploads the JSON success response reports
the capped attachment count. -/
theorem attachments_capped_at_eight_witness :
    ∃ msg, outC10.emailMsg = some msg
      ∧ outC10.body = jsonOkFiles (attCount msg.attachments)
      ∧ attCount msg.attachments ≤ 8 :=
  attachments_capped_at_eight.2 envC10 srcC10 uploadsC10 true
    "2026-01-01T00:00:00.000Z" outC10 (by rfl) (by rfl) (by rfl)

/-! ### Claims C3 and C8: the relay attachment fetcher -/

/-- All successfully fetched considered descriptors, as attachments in input
order: the pool the admitted output is drawn from. -/
def successAtts (cs : List FileDesc) : List RelayAttachment :=
  cs.filterMap (fun f => f.fetched.map (relayOf f))

/-- The size descriptor `k` can contribute to the running total: zero for a
missing, failed or oversize file. -/
def cSize (cs : List FileDesc) (k : Nat) : Nat :=
  match cs[k]? with
  | some f =>
    match f.fetched with
    | some size => if MAX_EACH_BYTES < size then 0 else size
    | none => 0
  | none => 0

/-- Descriptor `k` exists, fetched successfully, within the per-file cap. -/
def compliantAt (cs : List FileDesc) (k : Nat) : Prop :=
  ∃ f size, cs[k]? = some f ∧ f.fetched = some size ∧ size ≤ MAX_EACH_BYTES

theorem runSched_mono (cs : List FileDesc) :
    ∀ (sched : List Nat) (st : List Nat × Nat) (k : Nat), k ∈ st.1 →
      k ∈ (sched.foldl (schedStep cs) st).1 := by
  intro sched
  induction sched with
  | nil => intro st k hk; exact hk
  | cons j rest ih =>
    intro st k hk
    rw [List.foldl_cons]
    apply ih
    unfold schedStep
    rcases hf : cs[j]? with _ | f
    · simp only [hf]
      exact hk
    · simp only [hf]
      rcases hs : f.fetched with _ | size
      · simp only [hs]
        exact hk
      · simp only [hs]
        by_cases h1 : MAX_EACH_BYTES < size
        · simp only [if_pos h1]
          exact hk
        · simp only [if_neg h1]
          by_cases h2 : MAX_TOTAL_BYTES < st.2 + size
          · simp only [if_pos h2]
            exact hk
          · simp only [if_neg h2]
            simp [List.mem_append, hk]

theorem runSched_good (cs : List FileDesc) :
    ∀ (sched : List Nat) (st : List Nat × Nat), (∀ k ∈ st.1, compliantAt cs k) →
      ∀ k ∈ (sched.foldl (schedStep cs) st).1, compliantAt cs k := by
  intro sched
  induction sched with
  | nil => intro st h k hk; exact h k hk
  | cons j rest ih =>
    intro st h
    rw [List.foldl_cons]
    apply ih
    intro k hk
    unfold schedStep at hk
    rcases hf : cs[j]? with _ | f
    · simp only [hf] at hk
      exact h k hk
    · simp only [hf] at hk
      rcases hs : f.fetched with _ | size
      · simp only [hs] at hk
        exact h k hk
      · simp only [hs] at hk
        by_cases h1 : MAX_EACH_BYTES < size
        · rw [if_pos h1] at hk
          exact h k hk
        · rw [if_neg h1] at hk
          by_cases h2 : MAX_TOTAL_BYTES < st.2 + size
          · rw [if_pos h2] at hk
            exact h k hk
          · rw [if_neg h2] at hk
            simp only [List.mem_append, List.mem_singleton] at hk
            rcases hk with hk | hk
            · exact h k hk
            · subst hk
              exact ⟨f, size, hf, hs, by omega⟩

theorem filterMap_sublist {α β : Type} (f g : α → Option β)
    (h : ∀ x a, f x = some a → g x = some a) :
    ∀ l : List α, (l.filterMap f).Sublist (l.filterMap g) := by
  intro l
  induction l with
  | nil => simp
  | cons x l ih =>
    rw [List.filterMap_cons, List.filterMap_cons]
    rcases hf : f x with _ | a
    · rcases hg : g x with _ | b
      · exact ih
      · exact ih.cons b
    · rw [h x a hf]
      exact ih.cons₂ a

theorem runSched_all_fit (cs : List FileDesc) :
    ∀ (sched : List Nat) (st : List Nat × Nat),
      st.2 + (sched.map (cSize cs)).sum ≤ MAX_TOTAL_BYTES →
      ∀ k ∈ sched, compliantAt cs k → k ∈ (sched.foldl (schedStep cs) st).1 := by
  intro sched
  induction sched with
  | nil =>
    intro st hb k hk
    simp at hk
  | cons j rest ih =>
    intro st hb k hk hc
    rw [List.foldl_cons]
    have hstep2 : (schedStep cs st j).2 ≤ st.2 + cSize cs j := by
      unfold schedStep cSize
      rcases hf : cs[j]? with _ | f
      · simp only [hf]
        omega
      · simp only [hf]
        rcases hs : f.fetched with _ | size
        · simp only [hs]
          omega
        · simp only [hs]
          by_cases h1 : MAX_EACH_BYTES < size
          · simp only [if_pos h1]
            omega
          · simp only [if_neg h1]
            by_cases h2 : MAX_TOTAL_BYTES < st.2 + size
            · simp only [if_pos h2]
              omega
            · simp only [if_neg h2]
              omega
    rw [List.map_cons, List.sum_cons] at hb
    rcases List.mem_cons.mp hk with hkj | hkr
    · subst hkj
      obtain ⟨f, size, hf, hs, hle⟩ := hc
      have h1 : ¬ MAX_EACH_BYTES < size := by omega
      have hcs : cSize cs k = size := by
        simp [cSize, hf, hs, if_neg h1]
      rw [hcs] at hb
      apply runSched_mono
      unfold schedStep
      simp only [hf, hs, if_neg h1, if_neg (by omega : ¬ MAX_TOTAL_BYTES < st.2 + size)]
      simp
    · exact ih (schedStep cs st j) (by omega) k hkr hc


theorem processAttachments_mem_inv (files : List FileDesc) (sched : List Nat)
    (a : RelayAttachment) (ha : a ∈ processAttachments files sched) :
    ∃ (k : Nat) (f : FileDesc) (size : Nat),
      (files.take MAX_ATTACH)[k]? = some f ∧ f.fetched = some size ∧
      size ≤ MAX_EACH_BYTES ∧ a = relayOf f size := by
  simp only [processAttachments] at ha
  rcases List.mem_filterMap.mp ha with ⟨p, hp, hsome⟩
  by_cases hadm : p.1 ∈ (runSched (files.take MAX_ATTACH) sched).1
  · rw [if_pos hadm] at hsome
    rcases hfe : p.2.fetched with _ | size
    · rw [hfe] at hsome
      simp at hsome
    · rw [hfe] at hsome
      simp only [Option.some.injEq] at hsome
      have hgood : compliantAt (files.take MAX_ATTACH) p.1 :=
        runSched_good (files.take MAX_ATTACH) sched ([], 0) (by simp) p.1 hadm
      obtain ⟨f, size', hf', hs', hle'⟩ := hgood
      have hp2 : (files.take MAX_ATTACH)[p.1]? = some p.2 := by
        rcases p with ⟨i, x⟩
        exact List.mk_mem_enum_iff_getElem?.mp hp
      rw [hp2] at hf'
      injection hf' with hf'
      subst hf'
      rw [hfe] at hs'
      injection hs' with hs'
      subst hs'
      exact ⟨p.1, p.2, size, hp2, hfe, hle', hsome.symm⟩
  · rw [if_neg hadm] at hsome
    simp at hsome

theorem processAttachments_sublist_success (files : List FileDesc) (sched : List Nat) :
    (processAttachments files sched).Sublist (successAtts (files.take MAX_ATTACH)) := by
  have hsucc : (files.take MAX_ATTACH).enum.filterMap
      (fun p => p.2.fetched.map (relayOf p.2)) = successAtts (files.take MAX_ATTACH) := by
    unfold successAtts
    conv_rhs => rw [← List.enum_map_snd (files.take MAX_ATTACH)]
    rw [List.filterMap_map]
    rfl
  rw [← hsucc]
  apply filterMap_sublist
  intro p a hfa
  by_cases hadm : p.1 ∈ (runSched (files.take MAX_ATTACH) sched).1
  · rw [if_pos hadm] at hfa
    rcases hfe : p.2.fetched with _ | size
    · rw [hfe] at hfa
      simp at hfa
    · rw [hfe] at hfa
      simp only [Option.some.injEq] at hfa
      simp [hfe, hfa]
  · rw [if_neg hadm] at hfa
    simp at hfa

/-- Four descriptors of 7MB each, all within the per-file cap. -/
def filesC3 : List FileDesc :=
  [{ url := "u0", filename := "a", type := "image/jpeg", fetched := some (7 * 1024 * 1024) },
   { url := "u1", filename := "b", type := "image/jpeg", fetched := some (7 * 1024 * 1024) },
   { url := "u2", filename := "c", type := "image/jpeg", fetched := some (7 * 1024 * 1024) },
   { url := "u3", filename := "d", type := "image/jpeg", fetched := some (7 * 1024 * 1024) }]

set_option maxRecDepth 20000 in
/-- Claim C3 counterexample: with completion order [2, 3, 0, 1] (a permutation
of the four considered indices) the shared running total is consumed by the
files whose fetches settle first, so files c and d are admitted and a and b
are rejected — not the input-order first-fit result [a, b]. The budget check
is applied in completion order, not in the fixed input order. -/
theorem processAttachments_completion_order_cex :
    processAttachments filesC3 [2, 3, 0, 1] ≠ firstFitSpec filesC3
    ∧ (processAttachments filesC3 [2, 3, 0, 1]).map RelayAttachment.filename = ["c", "d"]
    ∧ (firstFitSpec filesC3).map RelayAttachment.filename = ["a", "b"] := by
  refine ⟨by decide, by decide, by decide⟩

/-- The spec's example descriptors: sizes 5MB, 3MB and 15MB. -/
def specFilesC3 : List FileDesc :=
  [{ url := "u0", filename := "f1", type := "image/jpeg", fetched := some (5 * 1024 * 1024) },
   { url := "u1", filename := "f2", type := "image/jpeg", fetched := some (3 * 1024 * 1024) },
   { url := "u2", filename := "f3", type := "image/jpeg", fetched := some (15 * 1024 * 1024) }]

set_option maxRecDepth 20000 in
/-- Claim C3 (amended): only the first MAX_ATTACH descriptors are considered;
every admitted attachment lies within the per-file cap; the admitted output is
a sublist of the successful fetches in input order (input order is preserved,
never reordered); but the cumulative-total check is first-fit in
fetch-completion order rather than in the fixed input order; when completions
arrive in input order it coincides with the spec's input-order first-fit, as
on the spec's example, where the 15MB file is dropped and [f1, f2] are
admitted with a cumulative 8MB. -/
theorem processAttachments_bounds :
    (∀ files sched,
      processAttachments files sched = processAttachments (files.take MAX_ATTACH) sched)
    ∧ (∀ files sched a, a ∈ processAttachments files sched → a.size ≤ MAX_EACH_BYTES)
    ∧ (∀ files sched,
        (processAttachments files sched).Sublist (successAtts (files.take MAX_ATTACH)))
    ∧ processAttachments specFilesC3 (List.range 3) = firstFitSpec specFilesC3
    ∧ (firstFitSpec specFilesC3).map RelayAttachment.filename = ["f1", "f2"] := by
  refine ⟨?_, ?_, ?_, by decide, by decide⟩
  · intro files sched
    simp [processAttachments, List.take_take]
  · intro files sched a ha
    obtain ⟨k, f, size, hf, hfe, hle, haeq⟩ := processAttachments_mem_inv files sched a ha
    rw [haeq]
    exact hle
  · intro files sched
    exact processAttachments_sublist_success files sched

/-- Witness for the amended C3, applying the per-file bound at a concrete
admitted attachment of the spec example. -/
theorem processAttachments_bounds_witness :
    (relayOf { url := "u0", filename := "f1", type := "image/jpeg",
               fetched := some (5 * 1024 * 1024) } (5 * 1024 * 1024)).size
      ≤ MAX_EACH_BYTES :=
  processAttachments_bounds.2.1 specFilesC3 (List.range 3)
    (relayOf { url := "u0", filename := "f1", type := "image/jpeg",
               fetched := some (5 * 1024 * 1024) } (5 * 1024 * 1024)) (by decide)

/-- Five descriptors (7, 6, 3, 7, 4 MB), all fetches succeeding. -/
def filesC8ok : List FileDesc :=
  [{ url := "u0", filename := "a", type := "image/jpeg", fetched := some (7 * 1024 * 1024) },
   { url := "u1", filename := "b", type := "image/jpeg", fetched := some (6 * 1024 * 1024) },
   { url := "u2", filename := "c", type := "image/jpeg", fetched := some (3 * 1024 * 1024) },
   { url := "u3", filename := "d", type := "image/jpeg", fetched := some (7 * 1024 * 1024) },
   { url := "u4", filename := "e", type := "image/jpeg", fetched := some (4 * 1024 * 1024) }]

/-- The same five descriptors, but file c's fetch fails. -/
def filesC8fail : List FileDesc :=
  [{ url := "u0", filename := "a", type := "image/jpeg", fetched := some (7 * 1024 * 1024) },
   { url := "u1", filename := "b", type := "image/jpeg", fetched := some (6 * 1024 * 1024) },
   { url := "u2", filename := "c", type := "image/jpeg", fetched := none },
   { url := "u3", filename := "d", type := "image/jpeg", fetched := some (7 * 1024 * 1024) },
   { url := "u4", filename := "e", type := "image/jpeg", fetched := some (4 * 1024 * 1024) }]

set_option maxRecDepth 40000 in
/-- Claim C8 counterexample, with fetches completing in input order in both
runs: with every fetch succeeding the batch admits [a, b, c, e]; when only
file c's fetch fails, the freed budget lets the earlier-skipped d in and the
budget then rejects e, so the batch becomes [a, b, d]. The failure of c's
fetch is not limited to omitting c: it also drops e, whose own fetch
succeeded and which the all-success batch admitted. -/
theorem processAttachments_failure_changes_admission :
    (processAttachments filesC8ok (List.range 5)).map RelayAttachment.filename =
      ["a", "b", "c", "e"]
    ∧ (processAttachments filesC8fail (List.range 5)).map RelayAttachment.filename =
      ["a", "b", "d"] := by
  refine ⟨by decide, by decide⟩

set_option maxRecDepth 20000 in
/-- Claim C8 (amended): the fetcher never throws for a per-file failure (it is
a total function of the batch and completion order); a failed or non-OK fetch
produces no attachment, since every output attachment comes from a
successfully fetched, size-compliant descriptor; and every size-compliant
successful descriptor is admitted — a failure costs only that one file —
whenever the scheduled contributions fit the cumulative budget together; when
the budget binds, a failure can additionally change which other files are
admitted (see the counterexample). -/
theorem processAttachments_failure_independent :
    (∀ files sched a, a ∈ processAttachments files sched →
      ∃ (k : Nat) (f : FileDesc) (size : Nat),
        (files.take MAX_ATTACH)[k]? = some f ∧ f.fetched = some size ∧
        size ≤ MAX_EACH_BYTES ∧ a = relayOf f size)
    ∧ (∀ files sched (k : Nat) (f : FileDesc) (size : Nat),
        (sched.map (cSize (files.take MAX_ATTACH))).sum ≤ MAX_TOTAL_BYTES →
        k ∈ sched → (files.take MAX_ATTACH)[k]? = some f → f.fetched = some size →
        size ≤ MAX_EACH_BYTES →
        relayOf f size ∈ processAttachments files sched) := by
  constructor
  · intro files sched a ha
    exact processAttachments_mem_inv files sched a ha
  · intro files sched k f size hbudget hks hf hfe hle
    have hadm : k ∈ (runSched (files.take MAX_ATTACH) sched).1 :=
      runSched_all_fit (files.take MAX_ATTACH) sched ([], 0) (by simpa using hbudget) k hks
        ⟨f, size, hf, hfe, hle⟩
    simp only [processAttachments]
    apply List.mem_filterMap.mpr
    refine ⟨(k, f), List.mk_mem_enum_iff_getElem?.mpr hf, ?_⟩
    rw [if_pos hadm]
    simp [hfe]

/-- Batch for the C8 witness: f2's fetch fails, f1 and f3 succeed. -/
def filesC8w : List FileDesc :=
  [{ url := "u0", filename := "f1", type := "image/jpeg", fetched := some (5 * 1024 * 1024) },
   { url := "u1", filename := "f2", type := "image/jpeg", fetched := none },
   { url := "u2", filename := "f3", type := "image/jpeg", fetched := some (3 * 1024 * 1024) }]

/-- Witness for the amended C8: f3 is still admitted although f2's fetch
failed in the same batch. -/
theorem processAttachments_failure_independent_witness :
    relayOf { url := "u2", filename := "f3", type := "image/jpeg",
              fetched := some (3 * 1024 * 1024) } (3 * 1024 * 1024)
      ∈ processAttachments filesC8w [0, 1, 2] :=
  processAttachments_failure_independent.2 filesC8w [0, 1, 2] 2
    { url := "u2", filename := "f3", type := "image/jpeg",
      fetched := some (3 * 1024 * 1024) } (3 * 1024 * 1024)
    (by decide) (by decide) (by decide) (by decide) (by decide)

/-! ### Claim C4: HTML escaping of the email body -/

/-- Raw fields whose make is an HTML script tag. -/
def rawC4 : Fields :=
  [("name", JSVal.str "Bo"), ("email", JSVal.str "b@q.com"),
   ("phone", JSVal.str "6175551234"), ("vin", JSVal.str "V123"),
   ("make", JSVal.str "<script>")]

/-- The lead normalized from `rawC4`. -/
def leadC4 : Lead :=
  match normalizeLead "2026-01-01T00:00:00.000Z" rawC4 with
  | .ok l => l
  | .error _ => default

set_option maxRecDepth 80000 in
/-- Claim C4: escaping every rendered value fails on the vehicle summary
paragraph — with make equal to "<script>" the composed HTML body contains the
raw substring "<script>" (from the unescaped year/make/model interpolation),
even though the same value is escaped to "&lt;script&gt;" in its table row. -/
theorem buildEmailBodies_unescaped_vehicle_line :
    leadC4.make = "<script>"
    ∧ strContains (buildEmailBodies leadC4 rawC4).1 "<script>" = true
    ∧ strContains (buildEmailBodies leadC4 rawC4).1 "&lt;script&gt;" = true := by
  refine ⟨by decide, by decide, by decide⟩

/-! ### Claim C5: row order and control fields -/

theorem lexLe_total : ∀ a b : List Char, lexLe a b = true ∨ lexLe b a = true := by
  intro a
  induction a with
  | nil => intro b; left; rfl
  | cons x xs ih =>
    intro b
    cases b with
    | nil => right; rfl
    | cons y ys =>
      by_cases h1 : x.toNat < y.toNat
      · left
        simp [lexLe, h1]
      · by_cases h2 : y.toNat < x.toNat
        · right
          simp [lexLe, h2]
        · rcases ih ys with h | h
          · left
            simpa [lexLe, h1, h2] using h
          · right
            simpa [lexLe, h1, h2] using h

theorem lexLe_trans : ∀ a b c : List Char,
    lexLe a b = true → lexLe b c = true → lexLe a c = true := by
  intro a
  induction a with
  | nil => intro b c _ _; rfl
  | cons x xs ih =>
    intro b c hab hbc
    cases b with
    | nil => simp [lexLe] at hab
    | cons y ys =>
      cases c with
      | nil => simp [lexLe] at hbc
      | cons z zs =>
        simp only [lexLe] at hab hbc ⊢
        by_cases hxy : x.toNat < y.toNat
        · by_cases hyz : y.toNat < z.toNat
          · rw [if_pos (by omega : x.toNat < z.toNat)]
          · by_cases hzy : z.toNat < y.toNat
            · rw [if_neg hyz, if_pos hzy] at hbc
              exact absurd hbc (by simp)
            · rw [if_pos (by omega : x.toNat < z.toNat)]
        · by_cases hyx : y.toNat < x.toNat
          · rw [if_neg hxy, if_pos hyx] at hab
            exact absurd hab (by simp)
          · by_cases hyz : y.toNat < z.toNat
            · rw [if_pos (by omega : x.toNat < z.toNat)]
            · by_cases hzy : z.toNat < y.toNat
              · rw [if_neg hyz, if_pos hzy] at hbc
                exact absurd hbc (by simp)
              · rw [if_neg hxy, if_neg hyx] at hab
                rw [if_neg hyz, if_neg hzy] at hbc
                rw [if_neg (by omega : ¬ x.toNat < z.toNat),
                  if_neg (by omega : ¬ z.toNat < x.toNat)]
                exact ih ys zs hab hbc

theorem lexLe_antisymm : ∀ a b : List Char,
    lexLe a b = true → lexLe b a = true → a = b := by
  intro a
  induction a with
  | nil =>
    intro b _ hba
    cases b with
    | nil => rfl
    | cons y ys => simp [lexLe] at hba
  | cons x xs ih =>
    intro b hab hba
    cases b with
    | nil => simp [lexLe] at hab
    | cons y ys =>
      simp only [lexLe] at hab hba
      by_cases hxy : x.toNat < y.toNat
      · rw [if_neg (by omega : ¬ y.toNat < x.toNat), if_pos hxy] at hba
        exact absurd hba (by simp)
      · by_cases hyx : y.toNat < x.toNat
        · rw [if_neg hxy, if_pos hyx] at hab
          exact absurd hab (by simp)
        · rw [if_neg hxy, if_neg hyx] at hab
          rw [if_neg hyx, if_neg hxy] at hba
          rw [char_toNat_inj x y (by omega), ih ys hab hba]

instance : IsTotal String strRel :=
  ⟨fun a b => lexLe_total a.data b.data⟩

instance : IsTrans String strRel :=
  ⟨fun a b c => lexLe_trans a.data b.data c.data⟩

instance : IsAntisymm String strRel :=
  ⟨fun a b hab hba => String.ext (lexLe_antisymm a.data b.data hab hba)⟩

theorem keySort_sorted (l : List String) : List.Sorted strRel (keySort l) :=
  List.sorted_insertionSort strRel l

theorem keySort_perm (l : List String) : (keySort l).Perm l :=
  List.perm_insertionSort strRel l

theorem filterMap_eq_filterMap_filter_isSome {α β : Type} (f : α → Option β) :
    ∀ l : List α, l.filterMap f = (l.filter (fun a => (f a).isSome)).filterMap f := by
  intro l
  induction l with
  | nil => rfl
  | cons x xs ih =>
    rcases hf : f x with _ | b
    · rw [List.filterMap_cons, hf, List.filter_cons, if_neg (by simp [hf])]
      exact ih
    · rw [List.filterMap_cons, hf, List.filter_cons, if_pos (by simp [hf]),
        List.filterMap_cons, hf, ih]

/-- Modelled from the spec, as amended: preferred keys first in their given
order, skipping absent or blank values; then the remaining keys — those not
among the preferred ones — in lexicographic order, skipping blanks; no
control-field exclusion. -/
def specRowsNoExcl (merged : Fields) : List (String × String) :=
  preferredKeys.filterMap (rowOf merged) ++
  (keySort ((merged.map Prod.fst).filter (fun k => !preferredKeys.contains k))).filterMap
    (rowOf merged)

theorem keySort_filterMap_congr (merged : Fields) (p q : String → Bool)
    (hpq : ∀ k, (rowOf merged k).isSome = true → p k = q k) (keys : List String) :
    (keySort (keys.filter p)).filterMap (rowOf merged) =
    (keySort (keys.filter q)).filterMap (rowOf merged) := by
  rw [filterMap_eq_filterMap_filter_isSome (rowOf merged) (keySort (keys.filter p)),
    filterMap_eq_filterMap_filter_isSome (rowOf merged) (keySort (keys.filter q))]
  apply congrArg
  apply List.eq_of_perm_of_sorted (r := strRel)
  · have h1 : List.Perm ((keySort (keys.filter p)).filter (fun a => (rowOf merged a).isSome))
        ((keys.filter p).filter (fun a => (rowOf merged a).isSome)) :=
      (keySort_perm (keys.filter p)).filter _
    have h2 : List.Perm ((keySort (keys.filter q)).filter (fun a => (rowOf merged a).isSome))
        ((keys.filter q).filter (fun a => (rowOf merged a).isSome)) :=
      (keySort_perm (keys.filter q)).filter _
    have h3 : (keys.filter p).filter (fun a => (rowOf merged a).isSome) =
        (keys.filter q).filter (fun a => (rowOf merged a).isSome) := by
      rw [List.filter_filter, List.filter_filter]
      apply List.filter_congr
      intro x _
      cases hP : (rowOf merged x).isSome
      · simp [hP]
      · simp [hP, hpq x hP]
    exact h1.trans (h3 ▸ h2.symm)
  · exact List.Pairwise.filter _ (keySort_sorted (keys.filter p))
  · exact List.Pairwise.filter _ (keySort_sorted (keys.filter q))

/-- Claim C5 (amended): the intake compositor emits preferred-key rows first
in the given order (skipping absent or blank values), then the remaining keys
in lexicographic order (skipping blanks) — exactly the spec's ordering — but
it performs no control-field exclusion, while the relay compositor
createEmailContent is the one that excludes the control fields from its rows. -/
theorem buildRows_eq_specRows :
    (∀ merged : Fields, buildRows merged = specRowsNoExcl merged)
    ∧ (∀ (data : Fields) (k v : String), (k, v) ∈ createRows data →
        relayExcludedKeys.contains k = false) := by
  constructor
  · intro merged
    unfold buildRows specRowsNoExcl
    apply congrArg (preferredKeys.filterMap (rowOf merged) ++ ·)
    apply keySort_filterMap_congr merged _ _ _ (merged.map Prod.fst)
    intro k hk
    by_cases hmem : k ∈ preferredKeys
    · have h1 : k ∈ includedKeys merged := List.mem_filter.mpr ⟨hmem, hk⟩
      simp [List.contains, h1, hmem]
    · have h1 : k ∉ includedKeys merged := fun hc => hmem (List.mem_filter.mp hc).1
      simp [List.contains, h1, hmem]
  · intro data k v hkv
    unfold createRows at hkv
    rcases List.mem_filterMap.mp hkv with ⟨k', _, hsome⟩
    by_cases hex : relayExcludedKeys.contains k'
    · rw [if_pos hex] at hsome
      simp at hsome
    · rw [if_neg hex] at hsome
      rcases hg : getField data k' with _ | w
      · simp only [hg] at hsome
        exact absurd hsome (by simp)
      · simp only [hg] at hsome
        by_cases hv : hasValB w
        · rw [if_pos hv] at hsome
          injection hsome with hpair
          have hk : k' = k := congrArg Prod.fst hpair
          subst hk
          exact Bool.eq_false_iff.mpr hex
        · rw [if_neg hv] at hsome
          simp at hsome

/-- A merged field set carrying the form-capture metadata field. -/
def mergedC5 : Fields :=
  [("form-name", JSVal.str "trade-appraisal"), ("name", JSVal.str "Ann")]

set_option maxRecDepth 20000 in
/-- Claim C5 counterexample: the intake compositor renders the control field
form-name — a member of the relay compositor's own exclusion set — as an
ordinary row, so it does not exclude the control fields from the rendered
rows. -/
theorem buildRows_renders_form_name :
    ("form-name", "trade-appraisal") ∈ buildRows mergedC5
    ∧ relayExcludedKeys.contains "form-name" = true := by
  refine ⟨by decide, by decide⟩

/-- Witness for the amended C5: the relay compositor's rendered key "year" is
not a control field. -/
theorem buildRows_eq_specRows_witness :
    relayExcludedKeys.contains "year" = false :=
  buildRows_eq_specRows.2 [("year", JSVal.str "2020")] "year" "2020" (by decide)
